import Mathlib

/-!
Verification development for the spanner subsystem of a declarative
table-formatting library (great-tables).  The data model and the operations
are shallowly embedded: column and spanner descriptors are Lean structures,
registries are lists, and every directive is a pure function from snapshot
to snapshot.  Only `tab_stubhead` has its Python source in the repository;
the remaining operations are reconstructed from the specification document
and pinned against the repository's own test-suite values.
-/

set_option maxHeartbeats 1000000

/-- Role of a column descriptor: one of default, stub, row-group label or
hidden (spec §3, `ColInfoTypeEnum` in the tests). -/
inductive ColType where
  | default : ColType
  | stub : ColType
  | row_group : ColType
  | hidden : ColType
deriving DecidableEq, Repr

/-- Modelled from the spec: a column descriptor (`ColInfo`) carries an
identity (`var`), a role (`type`) and an optional width string. -/
structure ColInfo where
  var : String
  type : ColType := ColType.default
  column_width : Option String := none
deriving DecidableEq, Repr

/-- Modelled from the spec: `visible` is derived — a hidden role implies not
visible. -/
def ColInfo.visible (c : ColInfo) : Bool :=
  !(c.type == ColType.hidden)

/-- Modelled from the spec: a spanner descriptor (`SpannerInfo`) with its id,
assigned vertical level, covered column identities and resolved display
text. -/
structure SpannerInfo where
  spanner_id : String
  spanner_level : Nat
  vars : List String
  built : String
deriving DecidableEq, Repr

/-- Modelled from the spec: a stubhead label is either a plain string or an
opaque formatted-text object (`md` / `html` helpers); the core never
interprets the markup. -/
inductive GTText where
  | plain : String → GTText
  | md : String → GTText
  | html : String → GTText
deriving DecidableEq, Repr

/-- Modelled from the spec: the aggregate table snapshot.  The surrounding
system holds named slots (test_gt.py lists `_boxhead`, `_stub`,
`_row_groups`, `_spanners`, `_heading`, `_stubhead`, `_source_notes`,
`_footnotes`, `_styles`, `_locale`); the spanner core reads and writes only
the `boxhead` and `spanners` slots. -/
structure GT where
  boxhead : List ColInfo
  stub : List String
  row_groups : List String
  spanners : List SpannerInfo
  heading : Option String
  stubhead : Option GTText
  source_notes : List String
  footnotes : List String
  styles : List String
  locale : Option String
deriving DecidableEq, Repr

/-- Translated from src/great_tables/_stubhead.py: `tab_stubhead` returns
`self._replace(_stubhead=label)` — a new snapshot in which only the
stubhead slot is replaced by the given label. -/
def tab_stubhead (gt : GT) (label : GTText) : GT :=
  { gt with stubhead := some label }

/-- Modelled from the spec: the equality used by the run-length grouping.
`None` is treated as never equal to anything, itself included (the
test-suite pins `[a,a,b,None,None,c] ↦ [(a,2),(b,1),(None,1),(None,1),(c,1)]`,
so two adjacent `None`s are not merged). -/
def is_equal [BEq α] (x y : Option α) : Bool :=
  x.isSome && x == y

/-- Modelled from the spec: body of the run-length grouping loop.  `cur` is
the current run value, `n` its count so far; a new element extends the run
when `is_equal` holds and otherwise emits the finished pair. -/
def seq_groups_go [BEq α] (cur : Option α) (n : Nat) :
    List (Option α) → List (Option α × Nat)
  | [] => [(cur, n)]
  | el :: rest =>
      if is_equal el cur then seq_groups_go cur (n + 1) rest
      else (cur, n) :: seq_groups_go el 1 rest

/-- Modelled from the spec: `seq_groups` (§4.1 Run-Length Grouping) —
collapse consecutive equal elements of a finite sequence into
`(value, run_length)` pairs, in input order, with no sorting. -/
def seq_groups [BEq α] : List (Option α) → List (Option α × Nat)
  | [] => []
  | x :: xs => seq_groups_go x 1 xs

/-- Expansion inverse of the grouping: each `(v, n)` pair becomes `n` copies
of `v`, concatenated in output order. -/
def ungroup (gs : List (Option α × Nat)) : List (Option α) :=
  (gs.map (fun p => List.replicate p.2 p.1)).flatten

/-- Modelled from the spec: result kind for requesting the next element of a
grouped sequence — the exhaustion signal is a distinct constructor that
callers can tell apart from a genuine error (§7 ExhaustionSignal, §9
`Some(value)` / `End` design note). -/
inductive NextResult (α : Type) where
  | value : α → NextResult α
  | exhausted : NextResult α
  | failure : String → NextResult α
deriving DecidableEq, Repr

/-- Modelled from the spec: request the first element of the grouped
sequence; an empty grouping yields the exhaustion signal, never a value and
never an ordinary error. -/
def first_group [BEq α] (l : List (Option α)) : NextResult (Option α × Nat) :=
  match seq_groups l with
  | [] => NextResult.exhausted
  | p :: _ => NextResult.value p

lemma is_equal_eq_of_true [BEq α] [LawfulBEq α] {x y : Option α}
    (h : is_equal x y = true) : x = y := by
  unfold is_equal at h
  simp only [Bool.and_eq_true] at h
  exact eq_of_beq h.2

lemma ungroup_seq_groups_go [BEq α] [LawfulBEq α] (l : List (Option α)) :
    ∀ (cur : Option α) (n : Nat),
      ungroup (seq_groups_go cur n l) = List.replicate n cur ++ l := by
  induction l with
  | nil =>
      intro cur n
      simp [seq_groups_go, ungroup]
  | cons el rest ih =>
      intro cur n
      by_cases h : is_equal el cur = true
      · have hel : el = cur := is_equal_eq_of_true h
        subst hel
        rw [seq_groups_go, if_pos h, ih]
        rw [List.replicate_succ' n el]
        simp
      · simp only [seq_groups_go, h]
        simp only [Bool.false_eq_true, if_false]
        have : ungroup ((cur, n) :: seq_groups_go el 1 rest)
            = List.replicate n cur ++ ungroup (seq_groups_go el 1 rest) := by
          simp [ungroup]
        rw [this, ih el 1]
        simp

lemma seq_groups_go_none_count [BEq α] (l : List (Option α)) :
    ∀ (cur : Option α) (n : Nat), (cur = none → n = 1) →
      ∀ p ∈ seq_groups_go cur n l, p.1 = none → p.2 = 1 := by
  induction l with
  | nil =>
      intro cur n hcur p hp h1
      simp only [seq_groups_go, List.mem_singleton] at hp
      subst hp
      exact hcur h1
  | cons el rest ih =>
      intro cur n hcur p hp h1
      by_cases h : is_equal el cur = true
      · have hcs : cur ≠ none := by
          intro hcn
          subst hcn
          unfold is_equal at h
          simp only [Bool.and_eq_true] at h
          rcases h with ⟨hs, hb⟩
          cases el with
          | none => simp [Option.isSome] at hs
          | some a =>
              have : (some a == (none : Option α)) = false := by simp
              rw [this] at hb
              exact Bool.false_ne_true hb
        simp only [seq_groups_go, h, if_pos rfl] at hp
        exact ih cur (n + 1) (fun hc => absurd hc hcs) p hp h1
      · simp only [seq_groups_go, h, Bool.false_eq_true, if_false,
          List.mem_cons] at hp
        rcases hp with hp | hp
        · subst hp
          exact hcur h1
        · exact ih el 1 (fun _ => rfl) p hp h1

/-- Does any identity of `target` occur among `ys`?  Mirrors the membership
test `any(var in span.vars for var in vars)` used by the level
assignment. -/
def overlaps (target ys : List String) : Bool :=
  target.any (fun v => ys.contains v)

lemma overlaps_iff (target ys : List String) :
    overlaps target ys = true ↔ ∃ v, v ∈ target ∧ v ∈ ys := by
  unfold overlaps
  simp [List.any_eq_true, List.contains_iff_exists_mem_beq, beq_iff_eq]

/-- Modelled from the spec: `Spanners.next_level` is absent from src; it is
reconstructed from the spec's worked examples (§8: with spanners at level 0
over col1 and level 1 over col2, `next_level([col2]) = 2`) and the
repository tests (test_spanners_next_level_above_second), which pin the
behaviour "one plus the maximum level among spanners whose columns
intersect the target, or 0 when none does" — not the ascending first-fit
scan that §4.2 describes in prose. -/
def next_level (sps : List SpannerInfo) (target : List String) : Nat :=
  (sps.filter (fun s => overlaps target s.vars)).foldr
    (fun s acc => max (s.spanner_level + 1) acc) 0

/-- The union of the column identities of all spanners at a given level. -/
def level_union (sps : List SpannerInfo) (l : Nat) : List String :=
  ((sps.filter (fun s => s.spanner_level == l)).map (fun s => s.vars)).flatten

/-- Is the target disjoint from the union of the columns at level `l`?  A
level occupied by no spanner counts as disjoint. -/
def level_free (sps : List SpannerInfo) (l : Nat) (target : List String) : Bool :=
  !(overlaps target (level_union sps l))

/-- The disjointness property of a level, stated as a proposition over the
per-level column union. -/
def DisjointAtLevel (sps : List SpannerInfo) (l : Nat) (target : List String) : Prop :=
  ∀ v ∈ target, v ∉ level_union sps l

lemma level_free_iff (sps : List SpannerInfo) (l : Nat) (target : List String) :
    level_free sps l target = true ↔ DisjointAtLevel sps l target := by
  unfold level_free DisjointAtLevel
  rw [Bool.not_eq_true']
  constructor
  · intro h v hv hvu
    have : overlaps target (level_union sps l) = true :=
      (overlaps_iff _ _).mpr ⟨v, hv, hvu⟩
    rw [h] at this
    exact Bool.false_ne_true this
  · intro h
    by_contra hne
    have : overlaps target (level_union sps l) = true := by
      cases hov : overlaps target (level_union sps l) with
      | false => exact absurd hov hne
      | true => rfl
    rcases (overlaps_iff _ _).mp this with ⟨v, hv, hvu⟩
    exact h v hv hvu

lemma next_level_upper (sps : List SpannerInfo) (target : List String) :
    ∀ s ∈ sps, overlaps target s.vars = true →
      s.spanner_level < next_level sps target := by
  unfold next_level
  induction sps with
  | nil => intro s hs; cases hs
  | cons a rest ih =>
      intro s hs hov
      rcases List.mem_cons.mp hs with h | h
      · subst h
        rw [List.filter_cons, if_pos hov]
        simp only [List.foldr_cons]
        exact Nat.lt_of_lt_of_le (Nat.lt_succ_self _) (Nat.le_max_left _ _)
      · have hrest := ih s h hov
        rw [List.filter_cons]
        by_cases ha : overlaps target a.vars = true
        · rw [if_pos ha]
          simp only [List.foldr_cons]
          exact Nat.lt_of_lt_of_le hrest (Nat.le_max_right _ _)
        · rw [if_neg ha]
          exact hrest

lemma next_level_least (sps : List SpannerInfo) (target : List String) :
    ∀ m, (∀ s ∈ sps, overlaps target s.vars = true → s.spanner_level < m) →
      next_level sps target ≤ m := by
  unfold next_level
  induction sps with
  | nil => intro m _; exact Nat.zero_le m
  | cons a rest ih =>
      intro m hm
      rw [List.filter_cons]
      by_cases ha : overlaps target a.vars = true
      · rw [if_pos ha]
        simp only [List.foldr_cons]
        refine max_le ?_ ?_
        · exact hm a (List.mem_cons_self a rest) ha
        · exact ih m (fun s hs hov => hm s (List.mem_cons_of_mem a hs) hov)
      · rw [if_neg ha]
        exact ih m (fun s hs hov => hm s (List.mem_cons_of_mem a hs) hov)

lemma mem_level_union (sps : List SpannerInfo) (l : Nat) (v : String) :
    v ∈ level_union sps l ↔ ∃ s ∈ sps, s.spanner_level = l ∧ v ∈ s.vars := by
  unfold level_union
  simp only [List.mem_flatten, List.mem_map, List.mem_filter, beq_iff_eq]
  constructor
  · rintro ⟨vs, ⟨s, ⟨hs, hl⟩, hvs⟩, hv⟩
    exact ⟨s, hs, hl, hvs ▸ hv⟩
  · rintro ⟨s, hs, hl, hv⟩
    exact ⟨s.vars, ⟨s, ⟨hs, hl⟩, rfl⟩, hv⟩

/-- The level returned by `next_level` is disjoint from everything at that
level: a spanner at that level overlapping the target would have forced a
strictly larger result. -/
lemma next_level_disjoint (sps : List SpannerInfo) (target : List String) :
    DisjointAtLevel sps (next_level sps target) target := by
  intro v hv hvu
  rcases (mem_level_union sps _ v).mp hvu with ⟨s, hs, hl, hvs⟩
  have hov : overlaps target s.vars = true := (overlaps_iff _ _).mpr ⟨v, hv, hvs⟩
  have := next_level_upper sps target s hs hov
  rw [hl] at this
  exact Nat.lt_irrefl _ this

/-- Two spanner descriptors collide when they sit at the same level and
share a column identity. -/
def spanner_overlap (a b : SpannerInfo) : Bool :=
  a.spanner_level == b.spanner_level && overlaps a.vars b.vars

/-- Registry-wide invariant (spec §3): any two spanner descriptors at the
same level have disjoint column sets. -/
def levels_disjoint : List SpannerInfo → Bool
  | [] => true
  | s :: rest => rest.all (fun t => !(spanner_overlap s t)) && levels_disjoint rest

lemma contains_eq_true_iff (l : List String) (a : String) :
    l.contains a = true ↔ a ∈ l := by
  simp [List.contains_iff_exists_mem_beq, beq_iff_eq]

lemma levels_disjoint_append_singleton (l : List SpannerInfo) (x : SpannerInfo) :
    levels_disjoint (l ++ [x])
      = (levels_disjoint l && l.all (fun s => !(spanner_overlap s x))) := by
  induction l with
  | nil => simp [levels_disjoint]
  | cons a rest ih =>
      simp only [List.cons_append, levels_disjoint, List.all_append,
        List.all_cons, List.all_nil, Bool.and_true, ih]
      cases hd : levels_disjoint rest <;>
        cases ho : spanner_overlap a x <;>
          cases hall1 : rest.all (fun t => !(spanner_overlap a t)) <;>
            cases hall2 : rest.all (fun s => !(spanner_overlap s x)) <;>
              simp [ih, hd, ho, hall1, hall2]

/-- Modelled from the spec: collapse duplicates of a column-identity list,
keeping the first occurrence of each identity (the "union in order of first
appearance" of §4.3); `seen` accumulates the identities already kept. -/
def firstDedupAux (seen : List String) : List String → List String
  | [] => []
  | x :: xs =>
      if seen.contains x then firstDedupAux seen xs
      else x :: firstDedupAux (x :: seen) xs

/-- Modelled from the spec: first-appearance deduplication of a list of
column identities. -/
def firstDedup (l : List String) : List String :=
  firstDedupAux [] l

lemma mem_firstDedupAux (l : List String) :
    ∀ (seen : List String) (a : String),
      a ∈ firstDedupAux seen l ↔ (a ∈ l ∧ a ∉ seen) := by
  induction l with
  | nil => intro seen a; simp [firstDedupAux]
  | cons x xs ih =>
      intro seen a
      by_cases hx : seen.contains x = true
      · rw [firstDedupAux, if_pos hx, ih]
        have hxs : x ∈ seen := (contains_eq_true_iff seen x).mp hx
        constructor
        · rintro ⟨ha, hns⟩
          exact ⟨List.mem_cons_of_mem x ha, hns⟩
        · rintro ⟨ha, hns⟩
          rcases List.mem_cons.mp ha with h | h
          · subst h; exact absurd hxs hns
          · exact ⟨h, hns⟩
      · rw [firstDedupAux, if_neg hx]
        have hxns : x ∉ seen := fun hmem => hx ((contains_eq_true_iff seen x).mpr hmem)
        constructor
        · intro hmem
          rcases List.mem_cons.mp hmem with h | h
          · subst h; exact ⟨List.mem_cons_self _ _, hxns⟩
          · rcases (ih (x :: seen) a).mp h with ⟨ha, hns⟩
            refine ⟨List.mem_cons_of_mem x ha, fun hs => hns (List.mem_cons_of_mem x hs)⟩
        · rintro ⟨ha, hns⟩
          rcases List.mem_cons.mp ha with h | h
          · subst h; exact List.mem_cons_self _ _
          · by_cases hax : a = x
            · subst hax; exact List.mem_cons_self a _
            · refine List.mem_cons_of_mem x ((ih (x :: seen) a).mpr ⟨h, ?_⟩)
              intro hs
              rcases List.mem_cons.mp hs with h2 | h2
              · exact hax h2
              · exact hns h2

lemma mem_firstDedup (l : List String) (a : String) :
    a ∈ firstDedup l ↔ a ∈ l := by
  unfold firstDedup
  rw [mem_firstDedupAux]
  simp

lemma firstDedupAux_of_nodup (l : List String) :
    ∀ seen : List String, (∀ a ∈ l, a ∉ seen) → l.Nodup →
      firstDedupAux seen l = l := by
  induction l with
  | nil => intro seen _ _; rfl
  | cons x xs ih =>
      intro seen hdisj hnd
      have hxns : x ∉ seen := hdisj x (List.mem_cons_self x xs)
      have hx : seen.contains x = false := by
        rw [Bool.eq_false_iff]
        intro hc
        exact hxns ((contains_eq_true_iff seen x).mp hc)
      rw [firstDedupAux, hx]
      simp only [Bool.false_eq_true, if_false]
      have hnd' := List.nodup_cons.mp hnd
      congr 1
      refine ih (x :: seen) ?_ hnd'.2
      intro a ha hs
      rcases List.mem_cons.mp hs with h | h
      · subst h; exact hnd'.1 ha
      · exact hdisj a (List.mem_cons_of_mem x ha) h

lemma firstDedup_of_nodup (l : List String) (h : l.Nodup) :
    firstDedup l = l :=
  firstDedupAux_of_nodup l [] (by intro a _ hs; cases hs) h

/-- Modelled from the spec (§4.5 move): reinsert the extracted block
immediately after the first occurrence of the anchor column. -/
def insert_after (anchor : String) (moving : List String) :
    List String → List String
  | [] => []
  | v :: rest =>
      if v == anchor then v :: (moving ++ rest)
      else v :: insert_after anchor moving rest

/-- Modelled from the spec (§4.5): `cols_move` on the identity order — the
selected columns other than the anchor are extracted preserving their
relative order and reinserted immediately after the anchor; all other
columns keep their relative order. -/
def cols_move_vars (vars sel : List String) (after : String) : List String :=
  let moving := sel.filter (fun c => !(c == after))
  let other := vars.filter (fun c => !(moving.contains c))
  insert_after after moving other

/-- Modelled from the spec (§4.3 gather): reorder the column identities so
the spanned columns become a contiguous block at the position of the first
selected column. -/
def gather_vars (vars sel : List String) : List String :=
  match sel with
  | [] => vars
  | f :: _ => cols_move_vars vars sel f

/-- Modelled from the spec: rebuild the column registry in the order given
by a list of identities, keeping each descriptor's metadata. -/
def reorder_boxhead (bh : List ColInfo) (new_vars : List String) : List ColInfo :=
  new_vars.filterMap (fun v => bh.find? (fun c => c.var == v))

/-- Modelled from the spec (§4.3, `tab_spanner`): the column set is the
selected columns followed by the referenced spanners' columns, duplicates
collapsed in first-appearance order; the level, when not explicitly
supplied, comes from `next_level` on that column set (pinned by
test_multiple_spanners_above_one, where spanner E over B and C lands at
level 3, not at max-referenced-level-plus-one = 2); with `gather` the
column registry is reordered so the spanned columns become contiguous. -/
def tab_spanner (gt : GT) (label : String) (cols : List String)
    (spannerIds : List String) (level : Option Nat) (gather : Bool) : GT :=
  let refSpans := gt.spanners.filter (fun s => spannerIds.contains s.spanner_id)
  let spannerCols := (refSpans.map (fun s => s.vars)).flatten
  let finalCols := firstDedup (cols ++ spannerCols)
  let lvl := match level with
    | some l => l
    | none => next_level gt.spanners finalCols
  let newSpan : SpannerInfo :=
    { spanner_id := label, spanner_level := lvl, vars := finalCols, built := label }
  let newBoxhead :=
    if gather then reorder_boxhead gt.boxhead (gather_vars (gt.boxhead.map (fun c => c.var)) finalCols)
    else gt.boxhead
  { gt with spanners := gt.spanners ++ [newSpan], boxhead := newBoxhead }

/-- Modelled from the spec (§4.4): the ordered list of column identities to
render — all columns unless hidden ones are excluded, and never the
stub/row-group role columns, which are rendered outside the spanner
matrix. -/
def visible_vars (bh : List ColInfo) (include_hidden : Bool) : List String :=
  (bh.filter (fun c =>
    !(c.type == ColType.stub) && !(c.type == ColType.row_group)
      && (include_hidden || c.visible))).map (fun c => c.var)

/-- Largest level used by any spanner in the registry (0 when empty). -/
def max_spanner_level (sps : List SpannerInfo) : Nat :=
  (sps.map (fun s => s.spanner_level)).foldr max 0

/-- The distinct spanner levels present in the registry, from the highest
level down. -/
def levels_desc (sps : List SpannerInfo) : List Nat :=
  ((List.range (max_spanner_level sps + 1)).reverse).filter
    (fun l => sps.any (fun s => s.spanner_level == l))

/-- The id of the first spanner in registry order that sits at level `l` and
covers column `v`; `none` when the column is uncovered at that level. -/
def owner_id_at (sps : List SpannerInfo) (l : Nat) (v : String) : Option String :=
  (sps.find? (fun s => s.spanner_level == l && s.vars.contains v)).map
    (fun s => s.spanner_id)

/-- Resolved display text of the spanner with the given id. -/
def built_of (sps : List SpannerInfo) (sid : String) : Option String :=
  (sps.find? (fun s => s.spanner_id == sid)).map (fun s => s.built)

/-- Modelled from the spec (§4.4): turn the run-length groups of the
per-column owning-spanner-id sequence into cells — the spanner's built
label on the column beginning a maximal run, a blank continuation marker
for the rest of the run, and a null cell for uncovered columns. -/
def group_cells (sps : List SpannerInfo) :
    List (Option String × Nat) → List (Option String)
  | [] => []
  | (o, n) :: rest =>
      (o.bind (built_of sps)) :: (List.replicate (n - 1) none ++ group_cells sps rest)

/-- Modelled from the spec (§4.4): the matrix row for one spanner level,
keyed by visible column identity. -/
def level_row (sps : List SpannerInfo) (l : Nat) (vars : List String) :
    List (String × Option String) :=
  vars.zip (group_cells sps (seq_groups (vars.map (owner_id_at sps l))))

/-- Modelled from the spec (§4.4): the final row mapping each visible
column to its own display identity. -/
def columns_row (vars : List String) : List (String × Option String) :=
  vars.map (fun v => (v, some v))

/-- Modelled from the spec (§4.4, `spanners_print_matrix`): one row per
spanner level present, highest level first, followed — unless
`omit_columns_row` — by the column-label row; also returns the
visible-column list. -/
def spanners_print_matrix (sps : List SpannerInfo) (bh : List ColInfo)
    (omit_columns_row : Bool) (include_hidden : Bool) :
    List (List (String × Option String)) × List String :=
  let vars := visible_vars bh include_hidden
  let srows := (levels_desc sps).map (fun l => level_row sps l vars)
  (if omit_columns_row then srows else srows ++ [columns_row vars], vars)

/-- The spanner fixture of the repository's test-suite: spanner `a` at
level 0 over col1, spanner `b` at level 1 over col2. -/
def fixtureSpanners : List SpannerInfo :=
  [ { spanner_id := "a", spanner_level := 0, vars := ["col1"], built := "A" },
    { spanner_id := "b", spanner_level := 1, vars := ["col2"], built := "B" } ]

/-- The boxhead fixture of the repository's test-suite: col1..col3 visible,
col4 hidden. -/
def fixtureBoxhead : List ColInfo :=
  [ { var := "col1" }, { var := "col2" }, { var := "col3" },
    { var := "col4", type := ColType.hidden } ]

example :
    spanners_print_matrix fixtureSpanners fixtureBoxhead false false
      = ([ [("col1", none), ("col2", some "B"), ("col3", none)],
           [("col1", some "A"), ("col2", none), ("col3", none)],
           [("col1", some "col1"), ("col2", some "col2"), ("col3", some "col3")] ],
         ["col1", "col2", "col3"]) := by decide

example :
    spanners_print_matrix fixtureSpanners fixtureBoxhead true false
      = ([ [("col1", none), ("col2", some "B"), ("col3", none)],
           [("col1", some "A"), ("col2", none), ("col3", none)] ],
         ["col1", "col2", "col3"]) := by decide

example :
    spanners_print_matrix fixtureSpanners fixtureBoxhead false true
      = ([ [("col1", none), ("col2", some "B"), ("col3", none), ("col4", none)],
           [("col1", some "A"), ("col2", none), ("col3", none), ("col4", none)],
           [("col1", some "col1"), ("col2", some "col2"), ("col3", some "col3"),
            ("col4", some "col4")] ],
         ["col1", "col2", "col3", "col4"]) := by decide

example :
    spanners_print_matrix
      [ { spanner_id := "a", spanner_level := 0, vars := ["x", "y"], built := "A" } ]
      [ { var := "x" }, { var := "y", type := ColType.stub } ] true false
      = ([ [("x", some "A")] ], ["x"]) := by decide

/-- Claim C1, counterexample: on the test-suite fixture (spanner `a` at
level 0 over col1, spanner `b` at level 1 over col2) and target `[col2]`,
`next_level` returns 2 even though level 0 is already disjoint from the
target — so it does not return the smallest disjoint level found by a
first-fit ascending scan. -/
theorem c1_counterexample :
    next_level fixtureSpanners ["col2"] = 2
      ∧ level_free fixtureSpanners 0 ["col2"] = true
      ∧ (0 : Nat) < 2 := by
  refine ⟨by decide, by decide, by decide⟩

/-- Claim C1, amended: `next_level` returns the smallest level k such that
the target column set is disjoint from the union of the columns of the
existing spanners at every level at or above k (equivalently, 0 when no
spanner's columns intersect the target and otherwise one plus the maximum
level among intersecting spanners); a level occupied by no spanner counts
as disjoint. -/
theorem c1_amended_next_level (sps : List SpannerInfo) (target : List String) :
    (∀ k, next_level sps target ≤ k → DisjointAtLevel sps k target)
      ∧ (∀ m, (∀ k, m ≤ k → DisjointAtLevel sps k target) →
          next_level sps target ≤ m) := by
  constructor
  · intro k hk v hv hvu
    rcases (mem_level_union sps k v).mp hvu with ⟨s, hs, hl, hvs⟩
    have hov : overlaps target s.vars = true := (overlaps_iff _ _).mpr ⟨v, hv, hvs⟩
    have := next_level_upper sps target s hs hov
    rw [hl] at this
    exact Nat.lt_irrefl k (Nat.lt_of_lt_of_le this hk)
  · intro m hm
    refine next_level_least sps target m ?_
    intro s hs hov
    rcases (overlaps_iff _ _).mp hov with ⟨v, hv, hvs⟩
    by_contra hge
    have hle : m ≤ s.spanner_level := Nat.le_of_not_lt hge
    have hdisj := hm s.spanner_level hle
    exact hdisj v hv ((mem_level_union sps _ v).mpr ⟨s, hs, rfl, hvs⟩)

/-- Witness for the amended C1 at the test fixture and target `[col2]`. -/
theorem c1_amended_witness :
    next_level fixtureSpanners ["col2"] ≤ 2
      ∧ DisjointAtLevel fixtureSpanners 2 ["col2"] :=
  ⟨by decide, (c1_amended_next_level fixtureSpanners ["col2"]).1 2 (by decide)⟩

/-- Claim C5: expanding each (value, run-length) pair produced by the
run-length grouping back into that many copies of the value, in output
order, reconstructs the input sequence exactly (hence the pairs appear in
first-occurrence order of the runs and nothing is sorted). -/
theorem c5_seq_groups_reconstruct (l : List (Option String)) :
    ungroup (seq_groups l) = l := by
  cases l with
  | nil => rfl
  | cons x xs =>
      rw [seq_groups, ungroup_seq_groups_go xs x 1]
      simp

/-- Claim C6, counterexample: a run of two consecutive `None` elements is
not merged — the grouping yields two separate `(None, 1)` pairs and no
`(None, 2)` pair, because the grouping's equality treats `None` as never
equal to anything, itself included. -/
theorem c6_counterexample :
    seq_groups ([none, none] : List (Option String)) = [(none, 1), (none, 1)]
      ∧ ((none : Option String), 2) ∉ seq_groups ([none, none] : List (Option String)) := by
  refine ⟨by decide, by decide⟩

/-- Claim C6, amended: the grouping merges consecutive equal non-None
elements into a single (value, count) pair, but `None` is treated as never
equal to itself — every `None` element yields its own `(None, 1)` pair, so
every output pair whose value is `None` has count 1 (pinned by
test_seq_groups on `[a,a,b,None,None,c]`). -/
theorem c6_amended_none_never_merged :
    (∀ l : List (Option String), ∀ p ∈ seq_groups l, p.1 = none → p.2 = 1)
      ∧ seq_groups ([some "a", some "a", some "b", none, none, some "c"] : List (Option String))
          = [(some "a", 2), (some "b", 1), (none, 1), (none, 1), (some "c", 1)] := by
  constructor
  · intro l p hp h1
    cases l with
    | nil => cases hp
    | cons x xs =>
        exact seq_groups_go_none_count xs x 1 (fun _ => rfl) p hp h1
  · decide

/-- Witness for the amended C6: the first `(None, 1)` group of a concrete
two-`None` input indeed has count 1. -/
theorem c6_amended_witness :
    ((none : Option String), 1) ∈ seq_groups ([none, none] : List (Option String))
      ∧ (((none : Option String), 1)).2 = 1 :=
  ⟨by decide,
    c6_amended_none_never_merged.1 [none, none] ((none : Option String), 1) (by decide) rfl⟩

/-- Claim C7: an empty input yields an empty grouping, and requesting the
first element of that grouping signals the distinct exhaustion condition —
not a value, and not an ordinary error. -/
theorem c7_empty_exhaustion :
    seq_groups ([] : List (Option String)) = []
      ∧ first_group ([] : List (Option String)) = NextResult.exhausted
      ∧ (∀ p, first_group ([] : List (Option String)) ≠ NextResult.value p)
      ∧ (∀ msg, first_group ([] : List (Option String)) ≠ NextResult.failure msg) := by
  refine ⟨rfl, rfl, ?_, ?_⟩
  · intro p h
    cases h
  · intro msg h
    cases h

/-- Witness for C7 at a concrete constructor argument. -/
theorem c7_empty_exhaustion_witness :
    first_group ([] : List (Option String))
      ≠ NextResult.value ((none : Option String), 1) :=
  c7_empty_exhaustion.2.2.1 ((none : Option String), 1)

/-- Claim C10: `tab_stubhead` returns a new snapshot in which only the
stubhead slot is replaced by the given label; the boxhead, spanners, stub,
heading, row groups, footnotes, source notes, styles and locale slots are
all unchanged (and, the embedding being pure, the original snapshot value
is not mutated). -/
theorem c10_tab_stubhead_replaces_only_stubhead (gt : GT) (label : GTText) :
    (tab_stubhead gt label).stubhead = some label
      ∧ (tab_stubhead gt label).boxhead = gt.boxhead
      ∧ (tab_stubhead gt label).spanners = gt.spanners
      ∧ (tab_stubhead gt label).stub = gt.stub
      ∧ (tab_stubhead gt label).row_groups = gt.row_groups
      ∧ (tab_stubhead gt label).heading = gt.heading
      ∧ (tab_stubhead gt label).source_notes = gt.source_notes
      ∧ (tab_stubhead gt label).footnotes = gt.footnotes
      ∧ (tab_stubhead gt label).styles = gt.styles
      ∧ (tab_stubhead gt label).locale = gt.locale := by
  refine ⟨rfl, rfl, rfl, rfl, rfl, rfl, rfl, rfl, rfl, rfl⟩

lemma levels_disjoint_snoc_next (sps : List SpannerInfo) (id bl : String)
    (vs : List String) (h : levels_disjoint sps = true) :
    levels_disjoint (sps ++
      [{ spanner_id := id, spanner_level := next_level sps vs,
         vars := vs, built := bl }]) = true := by
  rw [levels_disjoint_append_singleton, Bool.and_eq_true]
  refine ⟨h, ?_⟩
  rw [List.all_eq_true]
  intro s hsmem
  rw [Bool.not_eq_true']
  by_contra hne
  have hov : spanner_overlap s
      { spanner_id := id, spanner_level := next_level sps vs,
        vars := vs, built := bl } = true := by
    cases hb : spanner_overlap s
        { spanner_id := id, spanner_level := next_level sps vs,
          vars := vs, built := bl } with
    | false => exact absurd hb hne
    | true => rfl
  unfold spanner_overlap at hov
  rw [Bool.and_eq_true] at hov
  rcases hov with ⟨hlv, hvv⟩
  have hlv' : s.spanner_level = next_level sps vs := by
    simpa [beq_iff_eq] using hlv
  rcases (overlaps_iff _ _).mp hvv with ⟨v, hvs, hvt⟩
  exact next_level_disjoint sps vs v hvt
    ((mem_level_union sps _ v).mpr ⟨s, hsmem, hlv', hvs⟩)

/-- Claim C3: adding a spanner without an explicitly supplied level
preserves the registry-wide invariant that any two spanner descriptors at
the same level have disjoint column sets. -/
theorem c3_add_spanner_preserves_level_disjointness (gt : GT) (label : String)
    (cols spannerIds : List String) (gather : Bool)
    (h : levels_disjoint gt.spanners = true) :
    levels_disjoint (tab_spanner gt label cols spannerIds none gather).spanners = true := by
  have hs : (tab_spanner gt label cols spannerIds none gather).spanners
      = gt.spanners ++
        [{ spanner_id := label,
           spanner_level := next_level gt.spanners
             (firstDedup (cols ++ ((gt.spanners.filter
               (fun s => spannerIds.contains s.spanner_id)).map (fun s => s.vars)).flatten)),
           vars := firstDedup (cols ++ ((gt.spanners.filter
               (fun s => spannerIds.contains s.spanner_id)).map (fun s => s.vars)).flatten),
           built := label }] := rfl
  rw [hs]
  exact levels_disjoint_snoc_next gt.spanners label label _ h

/-- A full aggregate snapshot built from the test-suite fixtures, used to
instantiate hypotheses at concrete inputs. -/
def fixtureGT : GT :=
  { boxhead := fixtureBoxhead, stub := [], row_groups := [],
    spanners := fixtureSpanners, heading := none, stubhead := none,
    source_notes := [], footnotes := [], styles := [], locale := none }

/-- Witness for C3: the fixture registry satisfies the invariant and still
does after adding a spanner over col3 with no explicit level. -/
theorem c3_witness :
    levels_disjoint fixtureGT.spanners = true
      ∧ levels_disjoint (tab_spanner fixtureGT "x" ["col3"] [] none true).spanners = true :=
  ⟨by decide,
    c3_add_spanner_preserves_level_disjointness fixtureGT "x" ["col3"] [] true (by decide)⟩

/-- The column set a spanner built over other spanners receives: the union
of the referenced spanners' columns in registry order, duplicates collapsed
in first-appearance order. -/
def spanner_ref_columns (sps : List SpannerInfo) (ids : List String) : List String :=
  firstDedup (((sps.filter (fun s => ids.contains s.spanner_id)).map
    (fun s => s.vars)).flatten)

/-- An aggregate snapshot over the exibble data-set columns, with `row` as
the stub column and `group` as the row-group column, as in
test_multiple_spanners_above_one. -/
def exibbleGT : GT :=
  { boxhead := [ { var := "num" }, { var := "char" }, { var := "fctr" },
      { var := "date" }, { var := "time" }, { var := "currency" },
      { var := "row", type := ColType.stub },
      { var := "group", type := ColType.row_group } ],
    stub := [], row_groups := [], spanners := [], heading := none,
    stubhead := none, source_notes := [], footnotes := [], styles := [],
    locale := none }

/-- The directive chain of test_multiple_spanners_above_one: spanners A–D
over explicit columns, then E over the spanners B and C. -/
def exibbleChain : GT :=
  tab_spanner (tab_spanner (tab_spanner (tab_spanner (tab_spanner exibbleGT
    "A" ["num", "char", "fctr"] [] none true)
    "B" ["fctr"] [] none true)
    "C" ["num", "char"] [] none true)
    "D" ["fctr", "date", "time"] [] none true)
    "E" [] ["B", "C"] none true

/-- Claim C2, counterexample: in the chain of
test_multiple_spanners_above_one the spanner E over the spanners B and C
(both at level 1) receives level 3, not one above the maximum referenced
level (which would be 2) — the level-1-and-below bands are blocked and so
is level 2, where spanner D also covers fctr. -/
theorem c2_counterexample :
    (exibbleChain.spanners.map (fun s => (s.spanner_id, s.spanner_level)))
        = [("A", 0), ("B", 1), ("C", 1), ("D", 2), ("E", 3)]
      ∧ (exibbleChain.spanners.getLast?).map (fun s => s.vars)
        = some ["fctr", "num", "char"]
      ∧ ((exibbleChain.spanners.filter
            (fun s => ["B", "C"].contains s.spanner_id)).map
              (fun s => s.spanner_level)).foldr max 0 + 1 = 2
      ∧ (3 : Nat) ≠ 2 := by
  refine ⟨by decide, by decide, by decide, by decide⟩

/-- Claim C2, amended: when `tab_spanner` is called with spanner references
and no explicit level, the new spanner's column set is the union of the
referenced spanners' columns in order of first appearance with duplicates
collapsed, and its level is `next_level` of that column set — one plus the
maximum level among all spanners whose columns intersect it — which is
strictly above the level of every referenced spanner with a nonempty
column set, but not necessarily exactly one above their maximum. -/
theorem c2_amended_spanner_of_spanners (gt : GT) (label : String)
    (spannerIds : List String) (gather : Bool) :
    (tab_spanner gt label [] spannerIds none gather).spanners.getLast?
        = some { spanner_id := label,
                 spanner_level :=
                   next_level gt.spanners (spanner_ref_columns gt.spanners spannerIds),
                 vars := spanner_ref_columns gt.spanners spannerIds,
                 built := label }
      ∧ ∀ r ∈ gt.spanners.filter (fun s => spannerIds.contains s.spanner_id),
          r.vars ≠ [] →
            r.spanner_level
              < next_level gt.spanners (spanner_ref_columns gt.spanners spannerIds) := by
  constructor
  · have hs : (tab_spanner gt label [] spannerIds none gather).spanners
        = gt.spanners ++
          [{ spanner_id := label,
             spanner_level :=
               next_level gt.spanners (spanner_ref_columns gt.spanners spannerIds),
             vars := spanner_ref_columns gt.spanners spannerIds,
             built := label }] := rfl
    rw [hs, List.getLast?_concat]
  · intro r hr hne
    have hrmem : r ∈ gt.spanners := List.mem_of_mem_filter hr
    obtain ⟨v, hv⟩ : ∃ v, v ∈ r.vars := by
      cases hvars : r.vars with
      | nil => exact absurd hvars hne
      | cons a l => exact ⟨a, hvars ▸ List.mem_cons_self a l⟩
    have hvref : v ∈ spanner_ref_columns gt.spanners spannerIds := by
      unfold spanner_ref_columns
      rw [mem_firstDedup]
      exact List.mem_flatten.mpr ⟨r.vars, List.mem_map.mpr ⟨r, hr, rfl⟩, hv⟩
    exact next_level_upper gt.spanners _ r hrmem ((overlaps_iff _ _).mpr ⟨v, hvref, hv⟩)

/-- Witness for the amended C2: with both fixture spanners referenced,
spanner `a` (nonempty columns, level 0) sits strictly below the level the
new spanner receives. -/
theorem c2_amended_witness :
    ({ spanner_id := "a", spanner_level := 0, vars := ["col1"], built := "A" }
        : SpannerInfo).spanner_level
      < next_level fixtureGT.spanners (spanner_ref_columns fixtureGT.spanners ["a", "b"]) :=
  (c2_amended_spanner_of_spanners fixtureGT "ab" ["a", "b"] true).2
    { spanner_id := "a", spanner_level := 0, vars := ["col1"], built := "A" }
    (by decide) (by decide)

lemma foldr_max_le_mem (l : List Nat) : ∀ a ∈ l, a ≤ l.foldr max 0 := by
  induction l with
  | nil => intro a ha; cases ha
  | cons x xs ih =>
      intro a ha
      rcases List.mem_cons.mp ha with h | h
      · subst h; exact Nat.le_max_left _ _
      · exact Nat.le_trans (ih a h) (Nat.le_max_right _ _)

lemma spanner_level_le_max (sps : List SpannerInfo) :
    ∀ s ∈ sps, s.spanner_level ≤ max_spanner_level sps := by
  intro s hs
  exact foldr_max_le_mem _ _ (List.mem_map.mpr ⟨s, hs, rfl⟩)

lemma mem_levels_desc (sps : List SpannerInfo) (l : Nat) :
    l ∈ levels_desc sps ↔ ∃ s ∈ sps, s.spanner_level = l := by
  unfold levels_desc
  rw [List.mem_filter, List.mem_reverse, List.mem_range]
  constructor
  · rintro ⟨_, hany⟩
    rcases List.any_eq_true.mp hany with ⟨s, hs, hbeq⟩
    exact ⟨s, hs, by simpa [beq_iff_eq] using hbeq⟩
  · rintro ⟨s, hs, hl⟩
    refine ⟨?_, List.any_eq_true.mpr ⟨s, hs, by simp [hl]⟩⟩
    exact Nat.lt_succ_of_le (hl ▸ spanner_level_le_max sps s hs)

lemma levels_desc_nodup (sps : List SpannerInfo) : (levels_desc sps).Nodup :=
  List.Nodup.filter _ (List.nodup_reverse.mpr (List.nodup_range _))

lemma levels_desc_sorted (sps : List SpannerInfo) :
    (levels_desc sps).Pairwise (fun a b => a > b) := by
  unfold levels_desc
  refine List.Pairwise.sublist (List.filter_sublist _) ?_
  rw [List.pairwise_reverse]
  exact List.pairwise_lt_range _

lemma levels_desc_length (sps : List SpannerInfo) :
    (levels_desc sps).length = ((sps.map (fun s => s.spanner_level)).dedup).length := by
  have hnd := levels_desc_nodup sps
  have hset : (levels_desc sps).toFinset
      = (sps.map (fun s => s.spanner_level)).toFinset := by
    ext l
    rw [List.mem_toFinset, List.mem_toFinset, mem_levels_desc, List.mem_map]
  calc (levels_desc sps).length
      = (levels_desc sps).toFinset.card := (List.toFinset_card_of_nodup hnd).symm
    _ = ((sps.map (fun s => s.spanner_level)).toFinset).card := by rw [hset]
    _ = ((sps.map (fun s => s.spanner_level)).dedup).length := List.card_toFinset _

/-- Claim C4: the print matrix has one row per distinct spanner level
present in the registry, ordered from the highest level down (the rendered
level sequence is strictly descending and contains exactly the levels
present), followed — unless the columns row is omitted — by a final row
mapping each visible column to its own identity; so the row count is the
number of distinct levels, plus one unless `omit_columns_row` is set. -/
theorem c4_matrix_shape (sps : List SpannerInfo) (bh : List ColInfo) (inc : Bool) :
    (spanners_print_matrix sps bh true inc).1.length
        = ((sps.map (fun s => s.spanner_level)).dedup).length
      ∧ (spanners_print_matrix sps bh false inc).1.length
        = ((sps.map (fun s => s.spanner_level)).dedup).length + 1
      ∧ (spanners_print_matrix sps bh false inc).1.getLast?
        = some (columns_row ((spanners_print_matrix sps bh false inc).2))
      ∧ (spanners_print_matrix sps bh false inc).1
        = ((levels_desc sps).map (fun l => level_row sps l (visible_vars bh inc)))
            ++ [columns_row (visible_vars bh inc)]
      ∧ (levels_desc sps).Pairwise (fun a b => a > b)
      ∧ ∀ l, l ∈ levels_desc sps ↔ ∃ s ∈ sps, s.spanner_level = l := by
  refine ⟨?_, ?_, ?_, rfl, levels_desc_sorted sps, fun l => mem_levels_desc sps l⟩
  · show ((levels_desc sps).map (fun l => level_row sps l (visible_vars bh inc))).length
        = ((sps.map (fun s => s.spanner_level)).dedup).length
    rw [List.length_map, levels_desc_length]
  · show (((levels_desc sps).map (fun l => level_row sps l (visible_vars bh inc)))
        ++ [columns_row (visible_vars bh inc)]).length
        = ((sps.map (fun s => s.spanner_level)).dedup).length + 1
    rw [List.length_append, List.length_map, levels_desc_length]
    rfl
  · show (((levels_desc sps).map (fun l => level_row sps l (visible_vars bh inc)))
        ++ [columns_row (visible_vars bh inc)]).getLast?
        = some (columns_row (visible_vars bh inc))
    exact List.getLast?_concat _

/-- Witness for C4 at the test-suite fixtures: two distinct levels, hence
three rows with the columns row, two without. -/
theorem c4_matrix_shape_witness :
    (spanners_print_matrix fixtureSpanners fixtureBoxhead true false).1.length
        = ((fixtureSpanners.map (fun s => s.spanner_level)).dedup).length
      ∧ (spanners_print_matrix fixtureSpanners fixtureBoxhead false false).1.length
        = ((fixtureSpanners.map (fun s => s.spanner_level)).dedup).length + 1 :=
  ⟨(c4_matrix_shape fixtureSpanners fixtureBoxhead false).1,
   (c4_matrix_shape fixtureSpanners fixtureBoxhead false).2.1⟩

/-- Claim C8: the visible-column list of the print matrix is the column
registry's identities in registry order (a sublist of the boxhead order),
keeping exactly the columns that are neither stub nor row-group role and
that are unhidden unless `include_hidden` is set. -/
theorem c8_visible_columns (sps : List SpannerInfo) (bh : List ColInfo)
    (omitcr inc : Bool) :
    List.Sublist ((spanners_print_matrix sps bh omitcr inc).2) (bh.map (fun c => c.var))
      ∧ ∀ v, v ∈ (spanners_print_matrix sps bh omitcr inc).2
          ↔ ∃ c ∈ bh, c.var = v ∧ c.type ≠ ColType.stub ∧ c.type ≠ ColType.row_group
              ∧ (inc = true ∨ c.type ≠ ColType.hidden) := by
  constructor
  · show List.Sublist (visible_vars bh inc) (bh.map (fun c => c.var))
    exact List.Sublist.map _ (List.filter_sublist bh)
  · intro v
    show v ∈ visible_vars bh inc ↔ _
    unfold visible_vars
    rw [List.mem_map]
    constructor
    · rintro ⟨c, hc, rfl⟩
      rw [List.mem_filter] at hc
      rcases hc with ⟨hcbh, hcond⟩
      simp only [Bool.and_eq_true, Bool.or_eq_true, Bool.not_eq_true',
        ColInfo.visible, beq_eq_false_iff_ne] at hcond
      exact ⟨c, hcbh, rfl, hcond.1.1, hcond.1.2, hcond.2⟩
    · rintro ⟨c, hcbh, rfl, hst, hrg, hvis⟩
      refine ⟨c, List.mem_filter.mpr ⟨hcbh, ?_⟩, rfl⟩
      simp only [Bool.and_eq_true, Bool.or_eq_true, Bool.not_eq_true',
        ColInfo.visible, beq_eq_false_iff_ne]
      exact ⟨⟨hst, hrg⟩, hvis⟩

/-- Witness for C8: in the fixture boxhead, col1 is visible without
`include_hidden` (default role, not hidden). -/
theorem c8_visible_columns_witness :
    "col1" ∈ (spanners_print_matrix fixtureSpanners fixtureBoxhead false false).2 :=
  ((c8_visible_columns fixtureSpanners fixtureBoxhead false false).2 "col1").mpr
    ⟨{ var := "col1" }, by decide, rfl, by decide, by decide, Or.inr (by decide)⟩

lemma dropWhile_ne_eq_cons (f : String) :
    ∀ l : List String, f ∈ l →
      ∃ s, l.dropWhile (fun v => !(v == f)) = f :: s
        ∧ l = l.takeWhile (fun v => !(v == f)) ++ f :: s := by
  intro l
  induction l with
  | nil => intro h; cases h
  | cons v t ih =>
      intro hf
      by_cases hv : (v == f) = true
      · have hveq : v = f := eq_of_beq hv
        subst hveq
        refine ⟨t, ?_, ?_⟩
        · rw [List.dropWhile_cons]
          simp
        · rw [List.takeWhile_cons]
          simp
      · have hft : f ∈ t := by
          rcases List.mem_cons.mp hf with h1 | h1
          · subst h1
            exact absurd (beq_self_eq_true f) hv
          · exact h1
        rcases ih hft with ⟨s, hdrop, heq⟩
        have hpv : (!(v == f)) = true := by
          rw [Bool.not_eq_true']
          exact Bool.not_eq_true _ ▸ (Bool.eq_false_iff.mpr hv)
        refine ⟨s, ?_, ?_⟩
        · rw [List.dropWhile_cons, if_pos hpv, hdrop]
        · rw [List.takeWhile_cons, if_pos hpv]
          rw [List.cons_append]
          exact congrArg (v :: ·) heq

lemma insert_after_spec (f : String) (moving B : List String) :
    ∀ A, (∀ a ∈ A, (a == f) = false) →
      insert_after f moving (A ++ f :: B) = A ++ f :: (moving ++ B) := by
  intro A
  induction A with
  | nil =>
      intro _
      show insert_after f moving (f :: B) = f :: (moving ++ B)
      simp [insert_after]
  | cons a A' ih =>
      intro h
      have ha := h a (List.mem_cons_self a A')
      show insert_after f moving (a :: (A' ++ f :: B)) = a :: (A' ++ f :: (moving ++ B))
      simp only [insert_after, ha, Bool.false_eq_true, if_false]
      exact congrArg (a :: ·) (ih (fun x hx => h x (List.mem_cons_of_mem a hx)))

lemma find?_var_of_mem (bh : List ColInfo) (v : String) :
    v ∈ bh.map (fun c => c.var) →
      ∃ c, bh.find? (fun c => c.var == v) = some c ∧ c.var = v := by
  induction bh with
  | nil => intro h; cases h
  | cons c t ih =>
      intro h
      by_cases hc : (c.var == v) = true
      · exact ⟨c, List.find?_cons_of_pos t hc, eq_of_beq hc⟩
      · have hv : v ∈ t.map (fun c => c.var) := by
          rw [List.map_cons] at h
          rcases List.mem_cons.mp h with h1 | h1
          · exact absurd (h1 ▸ beq_self_eq_true v) hc
          · exact h1
        rcases ih hv with ⟨d, hfind, hdv⟩
        exact ⟨d, (List.find?_cons_of_neg t hc).trans hfind, hdv⟩

lemma reorder_boxhead_map_var (bh : List ColInfo) :
    ∀ nv, (∀ v ∈ nv, v ∈ bh.map (fun c => c.var)) →
      (reorder_boxhead bh nv).map (fun c => c.var) = nv := by
  intro nv
  induction nv with
  | nil => intro _; rfl
  | cons v t ih =>
      intro h
      rcases find?_var_of_mem bh v (h v (List.mem_cons_self v t)) with ⟨c, hfind, hvar⟩
      unfold reorder_boxhead
      have hstep : List.filterMap (fun v2 => List.find? (fun c => c.var == v2) bh) (v :: t)
          = c :: List.filterMap (fun v2 => List.find? (fun c => c.var == v2) bh) t :=
        List.filterMap_cons_some
          (show (fun v2 => List.find? (fun c => c.var == v2) bh) v = some c from hfind)
      rw [hstep, List.map_cons, hvar]
      exact congrArg (v :: ·) (ih (fun x hx => h x (List.mem_cons_of_mem v hx)))

lemma tab_spanner_boxhead_nil_refs (gt : GT) (label : String) (cols : List String) :
    (tab_spanner gt label cols [] none true).boxhead
      = reorder_boxhead gt.boxhead
          (gather_vars (gt.boxhead.map (fun c => c.var)) (firstDedup cols)) := by
  have h1 : gt.spanners.filter (fun s => ([] : List String).contains s.spanner_id) = [] := by
    rw [List.filter_eq_nil_iff]
    intro a _
    simp
  show reorder_boxhead gt.boxhead
      (gather_vars (gt.boxhead.map (fun c => c.var))
        (firstDedup (cols ++
          ((gt.spanners.filter (fun s => ([] : List String).contains s.spanner_id)).map
            (fun s => s.vars)).flatten))) = _
  rw [h1]
  simp

/-- Claim C9: with `gather` (the default), `tab_spanner` reorders the
column registry so the spanned columns become one contiguous block — in
selection order, first selected column first — placed where the first
selected column sat, while the remaining columns keep their relative order
around it: the new order is (non-selected columns before the first
selected one) ++ (the selected columns) ++ (non-selected columns after
it). -/
theorem c9_gather_contiguous (gt : GT) (label f : String) (rest : List String)
    (hnd : (gt.boxhead.map (fun c => c.var)).Nodup)
    (hsel : (f :: rest).Nodup)
    (hsub : ∀ v ∈ f :: rest, v ∈ gt.boxhead.map (fun c => c.var)) :
    ((tab_spanner gt label (f :: rest) [] none true).boxhead).map (fun c => c.var)
      = ((gt.boxhead.map (fun c => c.var)).takeWhile (fun v => !(v == f))).filter
            (fun v => !((f :: rest).contains v))
        ++ (f :: rest)
        ++ (((gt.boxhead.map (fun c => c.var)).dropWhile (fun v => !(v == f))).tail).filter
            (fun v => !((f :: rest).contains v)) := by
  have hfrest : f ∉ rest := (List.nodup_cons.mp hsel).1
  rw [tab_spanner_boxhead_nil_refs, firstDedup_of_nodup _ hsel]
  rcases dropWhile_ne_eq_cons f (gt.boxhead.map (fun c => c.var))
      (hsub f (List.mem_cons_self f rest)) with ⟨s0, hdrop, heq⟩
  set vars := gt.boxhead.map (fun c => c.var) with hvars
  set p0 := vars.takeWhile (fun v => !(v == f)) with hp0def
  have hmov : (f :: rest).filter (fun c => !(c == f)) = rest := by
    rw [List.filter_cons_of_neg (by simp)]
    refine List.filter_eq_self.mpr ?_
    intro a ha
    have hne : a ≠ f := fun he => hfrest (he ▸ ha)
    simp [hne]
  have hgv : gather_vars vars (f :: rest)
      = insert_after f rest (vars.filter (fun c => !(rest.contains c))) := by
    show insert_after f ((f :: rest).filter (fun c => !(c == f)))
        (vars.filter (fun c => !(((f :: rest).filter (fun c2 => !(c2 == f))).contains c)))
      = _
    rw [hmov]
  have hp0ne : ∀ a ∈ p0, (a == f) = false := by
    intro a ha
    have h2 := List.mem_takeWhile_imp ha
    rwa [Bool.not_eq_true'] at h2
  have hqf : (!(rest.contains f)) = true := by
    cases hc : rest.contains f with
    | false => rfl
    | true => exact absurd ((contains_eq_true_iff rest f).mp hc) hfrest
  have hfsplit : vars.filter (fun c => !(rest.contains c))
      = p0.filter (fun c => !(rest.contains c))
        ++ f :: s0.filter (fun c => !(rest.contains c)) := by
    conv_lhs => rw [heq]
    rw [List.filter_append]
    have hcons : List.filter (fun c => !(rest.contains c)) (f :: s0)
        = f :: List.filter (fun c => !(rest.contains c)) s0 :=
      List.filter_cons_of_pos (show (fun c => !(rest.contains c)) f = true from hqf)
    rw [hcons]
  have hins : insert_after f rest
      (p0.filter (fun c => !(rest.contains c))
        ++ f :: s0.filter (fun c => !(rest.contains c)))
      = p0.filter (fun c => !(rest.contains c))
        ++ f :: (rest ++ s0.filter (fun c => !(rest.contains c))) :=
    insert_after_spec f rest _ _ (fun a ha => hp0ne a (List.mem_of_mem_filter ha))
  have hfs0 : f ∉ s0 := by
    have h2 : (p0 ++ f :: s0).Nodup := heq ▸ hnd
    exact (List.nodup_cons.mp (List.Nodup.of_append_right h2)).1
  have hpcongr : p0.filter (fun c => !(rest.contains c))
      = p0.filter (fun v => !((f :: rest).contains v)) := by
    refine List.filter_congr ?_
    intro a ha
    rw [List.contains_cons, hp0ne a ha]
    simp
  have hscongr : s0.filter (fun c => !(rest.contains c))
      = s0.filter (fun v => !((f :: rest).contains v)) := by
    refine List.filter_congr ?_
    intro a ha
    have hne : (a == f) = false := by
      rw [Bool.eq_false_iff]
      intro hb
      exact hfs0 (eq_of_beq hb ▸ ha)
    rw [List.contains_cons, hne]
    simp
  have hmem : ∀ v ∈ p0.filter (fun c => !(rest.contains c))
        ++ f :: (rest ++ s0.filter (fun c => !(rest.contains c))), v ∈ vars := by
    intro v hv
    rcases List.mem_append.mp hv with h1 | h1
    · have h2 : v ∈ p0 := List.mem_of_mem_filter h1
      rw [heq]
      exact List.mem_append.mpr (Or.inl h2)
    · rcases List.mem_cons.mp h1 with h2 | h2
      · exact h2 ▸ hsub f (List.mem_cons_self f rest)
      · rcases List.mem_append.mp h2 with h3 | h3
        · exact hsub v (List.mem_cons_of_mem f h3)
        · have h4 : v ∈ s0 := List.mem_of_mem_filter h3
          rw [heq]
          exact List.mem_append.mpr (Or.inr (List.mem_cons_of_mem f h4))
  rw [hgv, hfsplit, hins, reorder_boxhead_map_var gt.boxhead _ hmem]
  rw [hpcongr, hscongr, hdrop]
  simp [List.append_assoc]

/-- A three-column snapshot matching the claim's worked example. -/
def abcGT : GT :=
  { boxhead := [ { var := "a" }, { var := "b" }, { var := "c" } ],
    stub := [], row_groups := [], spanners := [], heading := none,
    stubhead := none, source_notes := [], footnotes := [], styles := [],
    locale := none }

/-- Witness for C9 at the claim's example: columns [a,b,c] with a spanner
over [a,c] and gather yields the order [a,c,b]. -/
theorem c9_gather_witness :
    ((tab_spanner abcGT "sp" ["a", "c"] [] none true).boxhead).map (fun c => c.var)
      = ["a", "c", "b"] := by
  have h := c9_gather_contiguous abcGT "sp" "a" ["c"] (by decide) (by decide) (by decide)
  rw [h]
  decide
